import Mathlib

/-!
Verification of the serial command/response protocol engine of blutil
(`src/blutil.py`), shallowly embedded over `List Char`: the transport is
modelled as the list of bytes it will deliver before the timeout (ASCII
bytes are identified with their characters), and the polling loop of
`BLDevice.writecmd` is the recursion `readLoop`.
-/

set_option autoImplicit false

namespace Blutil

/-- Success terminator bytes `b"00\r"` (blutil.py line 38). -/
def termSeq : List Char := ['0', '0', '\r']

/-- Device error marker bytes `b"\n01\t"` (blutil.py line 45). -/
def errMarker : List Char := ['\n', '0', '1', '\t']

/-- Python `response.endswith(b"00\r")` (blutil.py lines 38 and 40). -/
def endsTerm (resp : List Char) : Bool := termSeq.isSuffixOf resp

/-- ASCII characters that Python `str.strip()` removes: space, tab,
newline, carriage return, vertical tab, form feed and the four
separator control characters 28-31. -/
def pyWsChars : List Char :=
  [' ', '\t', '\n', '\r', Char.ofNat 11, Char.ofNat 12,
   Char.ofNat 28, Char.ofNat 29, Char.ofNat 30, Char.ofNat 31]

/-- Python `s.strip()`: drop whitespace from both ends. -/
def pyStrip (s : List Char) : List Char :=
  ((s.dropWhile (fun c => pyWsChars.contains c)).reverse.dropWhile
    (fun c => pyWsChars.contains c)).reverse

/-- Bytes written by `writecmd` (blutil.py line 33):
`"AT%s%s\r" % ("" if args.startswith("+") else " ", args)` as ASCII. -/
def frame (args : List Char) : List Char :=
  ['A', 'T'] ++ (if List.isPrefixOf ['+'] args then [] else [' ']) ++ args ++ ['\r']

/-- The accumulation loop of `writecmd` (blutil.py lines 36-39): read one
byte at a time, appending to the accumulator, until the accumulator ends
with the success terminator or the stream is exhausted (the timeout). -/
def readLoop : List Char → List Char → List Char
  | [], acc => acc
  | b :: rest, acc => if endsTerm acc then acc else readLoop rest (acc ++ [b])

/-- Outcome of `writecmd` (blutil.py lines 40-48).  The source raises a
single broad exception type; the constructors here record which branch
raised and the data that branch computes.  `deviceError` carries
`response[4:]`, which the source embeds in the raised text after the
prefix `"BL600 returned error "`; `unexpected` carries the command and
raw response that the source formats into its message. -/
inductive CmdResult where
  | success (text : List Char)
  | noResponse (msg : List Char)
  | deviceError (msg : List Char)
  | unexpected (args resp : List Char)
deriving DecidableEq

/-- Single-quote character, used in the no-response diagnostic text. -/
def sq : Char := Char.ofNat 39

/-- Diagnostic text of blutil.py line 44:
`"Got no response to command 'AT%s'. Not connected or not in interactive mode?" % args`. -/
def noRespMsg (args : List Char) : List Char :=
  ("Got no response to command ".toList ++ [sq] ++ "AT".toList)
    ++ args
    ++ ([sq] ++ ". Not connected or not in interactive mode?".toList)

/-- Response classification of `writecmd` (blutil.py lines 40-48). -/
def classify (args resp : List Char) : CmdResult :=
  if endsTerm resp then
    CmdResult.success (pyStrip (resp.take (resp.length - 3)))
  else if resp.length = 0 then
    CmdResult.noResponse (noRespMsg args)
  else if 4 < resp.length ∧ resp.take 4 = errMarker then
    CmdResult.deviceError (resp.drop 4)
  else
    CmdResult.unexpected args resp

/-- Result of `writecmd args` with `expect_response=True` against a
transport that will deliver `stream` before the timeout. -/
def writecmdResp (args stream : List Char) : CmdResult :=
  classify args (readLoop stream [])

/-- C1: for every command sent with expectResponse=true, if the
accumulated response ends with the 3-byte success terminator `"00\r"`,
send succeeds and returns the accumulator with the trailing 3 bytes
removed and surrounding whitespace stripped; in particular a transport
emitting `"OK\t1234\r"` then `"00\r"` yields exactly `"OK\t1234"`. -/
theorem writecmd_success_strips_terminator :
    (∀ args stream : List Char,
      endsTerm (readLoop stream []) = true →
      writecmdResp args stream =
        CmdResult.success
          (pyStrip ((readLoop stream []).take ((readLoop stream []).length - 3))))
    ∧ (∀ args : List Char,
      writecmdResp args ("OK\t1234\r".toList ++ "00\r".toList) =
        CmdResult.success "OK\t1234".toList) := by
  constructor
  · intro args stream h
    simp [writecmdResp, classify, h]
  · intro args
    rfl

/-- Witness for C1 at a concrete stream whose accumulator ends with the
terminator. -/
theorem writecmd_success_strips_terminator_witness :
    writecmdResp "+DIR".toList ("ab".toList ++ "00\r".toList) =
      CmdResult.success "ab".toList := by
  have h := writecmd_success_strips_terminator.1 "+DIR".toList
    ("ab".toList ++ "00\r".toList) (by decide)
  exact h.trans (by decide)

/-- C2: for every accumulated response that does not end with `"00\r"`,
has length strictly greater than 4, and whose first 4 bytes are the
error marker `"\n01\t"`, send fails with a device error whose message is
exactly the remainder of the response after the 4-byte marker; in
particular the marker followed by `"bad thing"` fails with message
`"bad thing"`. -/
theorem writecmd_device_error_message :
    (∀ args stream : List Char,
      endsTerm (readLoop stream []) = false →
      4 < (readLoop stream []).length →
      (readLoop stream []).take 4 = errMarker →
      writecmdResp args stream =
        CmdResult.deviceError ((readLoop stream []).drop 4))
    ∧ (∀ args : List Char,
      writecmdResp args ("\n01\t".toList ++ "bad thing".toList) =
        CmdResult.deviceError "bad thing".toList) := by
  constructor
  · intro args stream h1 h2 h3
    have hne : (readLoop stream []).length ≠ 0 := by omega
    simp [writecmdResp, classify, h1, h2, h3, hne]
  · intro args
    rfl

/-- Witness for C2 at the concrete error stream from the spec. -/
theorem writecmd_device_error_message_witness :
    writecmdResp "X".toList ("\n01\t".toList ++ "oops".toList) =
      CmdResult.deviceError "oops".toList := by
  have h := writecmd_device_error_message.1 "X".toList
    ("\n01\t".toList ++ "oops".toList) (by decide) (by decide) (by decide)
  exact h.trans (by decide)

/-- C3: for every command sent with expectResponse=true, if the transport
yields zero bytes before the timeout (the accumulator is empty on exit),
send fails with the no-response error, whose diagnostic text includes the
original command text. -/
theorem writecmd_no_response :
    ∀ args stream : List Char,
      readLoop stream [] = [] →
      writecmdResp args stream = CmdResult.noResponse (noRespMsg args)
      ∧ ∃ s t : List Char, noRespMsg args = s ++ args ++ t := by
  intro args stream h
  refine ⟨?_, ?_⟩
  · simp [writecmdResp, h, classify, endsTerm, termSeq, List.isSuffixOf]
  · exact ⟨"Got no response to command ".toList ++ [sq] ++ "AT".toList,
      [sq] ++ ". Not connected or not in interactive mode?".toList, rfl⟩

/-- Witness for C3: the empty transport stream. -/
theorem writecmd_no_response_witness :
    writecmdResp "+DIR".toList [] = CmdResult.noResponse (noRespMsg "+DIR".toList)
    ∧ ∃ s t : List Char, noRespMsg "+DIR".toList = s ++ "+DIR".toList ++ t :=
  writecmd_no_response "+DIR".toList [] rfl

/-- C4: for every command text, the bytes written to the transport are
exactly ASCII `"AT"`, then a single space when the command text does not
start with `"+"` (nothing otherwise), then the command text, then a
carriage return. -/
theorem writecmd_framing :
    ∀ args : List Char,
      (List.isPrefixOf ['+'] args = true →
        frame args = ['A', 'T'] ++ args ++ ['\r'])
      ∧ (List.isPrefixOf ['+'] args = false →
        frame args = ['A', 'T', ' '] ++ args ++ ['\r']) := by
  intro args
  constructor
  · intro h; simp [frame, h]
  · intro h; simp [frame, h]

/-- Witness for C4 on one `+`-prefixed and one plain command. -/
theorem writecmd_framing_witness :
    frame "+DIR".toList = ['A', 'T'] ++ "+DIR".toList ++ ['\r']
    ∧ frame "I 0".toList = ['A', 'T', ' '] ++ "I 0".toList ++ ['\r'] :=
  ⟨(writecmd_framing "+DIR".toList).1 (by decide),
   (writecmd_framing "I 0".toList).2 (by decide)⟩

/-- C10: success classification takes precedence over error
classification: whenever the accumulated response ends with the success
terminator, send returns success, even when the response also begins
with the error marker. -/
theorem writecmd_success_precedence :
    ∀ args stream : List Char,
      endsTerm (readLoop stream []) = true →
      (readLoop stream []).take 4 = errMarker →
      ∃ t : List Char, writecmdResp args stream = CmdResult.success t := by
  intro args stream h _
  exact ⟨pyStrip ((readLoop stream []).take ((readLoop stream []).length - 3)),
    by simp [writecmdResp, classify, h]⟩

/-- Witness for C10: a stream that both starts with the error marker and
ends with the terminator is classified as success. -/
theorem writecmd_success_precedence_witness :
    ∃ t : List Char,
      writecmdResp "X".toList "\n01\t00\r".toList = CmdResult.success t :=
  writecmd_success_precedence "X".toList "\n01\t00\r".toList
    (by decide) (by decide)

/-!
Upload (`BLDevice.upload`, blutil.py lines 73-86) and the `chunks`
generator (lines 126-131).  The file is modelled as the list of its
bytes; the device is modelled as an oracle `okF` saying, for each
command text, whether `writecmd` on it succeeds (returns) or raises.
`runCmds` replays the exception semantics: commands are sent in order,
and the first failing command aborts the remainder.
-/

/-- The `chunks(f, 16)` generator driven to exhaustion, with explicit
fuel for structural recursion; the wrapper `chunks16` supplies enough
fuel.  When the fuel runs out (unreachable with fuel ≥ length) the rest
is emitted as a single truncated chunk. -/
def chunksGo : Nat → List Nat → List (List Nat)
  | _, [] => []
  | 0, a :: rest => [(a :: rest).take 16]
  | fuel + 1, a :: rest =>
      (a :: rest).take 16 :: chunksGo fuel ((a :: rest).drop 16)

/-- Successive 16-byte chunks of a file, as produced by `chunks(f, 16)`
(blutil.py lines 82 and 126-131); the final chunk may be shorter. -/
def chunks16 (data : List Nat) : List (List Nat) := chunksGo data.length data

/-- Python `"%02x" % n` (blutil.py line 83): lowercase hex digits of `n`,
left-padded with zeros to width at least 2.  `Nat.toDigits 16` renders
exactly the lowercase hex digits Python produces. -/
def pyHex02 (n : Nat) : List Char :=
  List.replicate (2 - (Nat.toDigits 16 n).length) '0' ++ Nat.toDigits 16 n

/-- Hex row for one chunk (blutil.py line 83):
`"".join(["%02x" % x for x in line])`. -/
def hexChunk (chunk : List Nat) : List Char := (chunk.map pyHex02).flatten

/-- Command text `'+DEL "%s" +' % devicename` (blutil.py line 79). -/
def delCmd (name : List Char) : List Char :=
  '+' :: 'D' :: 'E' :: 'L' :: ' ' :: '"' :: (name ++ ['"', ' ', '+'])

/-- Command text `'+FOW "%s"' % devicename` (blutil.py line 80). -/
def fowCmd (name : List Char) : List Char :=
  '+' :: 'F' :: 'O' :: 'W' :: ' ' :: '"' :: (name ++ ['"'])

/-- Command text `'+FWRH "%s"' % row` (blutil.py line 84). -/
def fwrhCmd (row : List Char) : List Char :=
  '+' :: 'F' :: 'W' :: 'R' :: 'H' :: ' ' :: '"' :: (row ++ ['"'])

/-- Command text `'+FCL'` (blutil.py line 85). -/
def fclCmd : List Char := ['+', 'F', 'C', 'L']

/-- Whether a command text is one of the `+FWRH` chunk writes. -/
def isFWRH (cmd : List Char) : Bool :=
  List.isPrefixOf ['+', 'F', 'W', 'R', 'H'] cmd

/-- The full command sequence `upload` attempts for a file with bytes
`data` to be stored under `name` (blutil.py lines 79-85). -/
def uploadCmds (name : List Char) (data : List Nat) : List (List Char) :=
  delCmd name :: fowCmd name ::
    ((chunks16 data).map (fun ch => fwrhCmd (hexChunk ch)) ++ [fclCmd])

/-- Replay a command list against a success oracle with exception
semantics: each command is sent, and the first command whose response is
a failure raises, aborting the rest.  Returns the commands actually sent
and whether the whole sequence succeeded. -/
def runCmds (okF : List Char → Bool) : List (List Char) → List (List Char) × Bool
  | [] => ([], true)
  | c :: rest =>
      if okF c then
        (c :: (runCmds okF rest).1, (runCmds okF rest).2)
      else ([c], false)

/-- The commands `upload` sends and its overall outcome, for a device
modelled by the success oracle `okF`. -/
def uploadRun (okF : List Char → Bool) (name : List Char) (data : List Nat) :
    List (List Char) × Bool :=
  runCmds okF (uploadCmds name data)

theorem isFWRH_fwrhCmd (row : List Char) : isFWRH (fwrhCmd row) = true := rfl

theorem isFWRH_delCmd (name : List Char) : isFWRH (delCmd name) = false := rfl

theorem isFWRH_fowCmd (name : List Char) : isFWRH (fowCmd name) = false := rfl

theorem isFWRH_fclCmd : isFWRH fclCmd = false := rfl

theorem fclCmd_ne_delCmd (name : List Char) : fclCmd ≠ delCmd name :=
  ne_of_beq_false rfl

theorem fclCmd_ne_fowCmd (name : List Char) : fclCmd ≠ fowCmd name :=
  ne_of_beq_false rfl

theorem fclCmd_ne_fwrhCmd (row : List Char) : fclCmd ≠ fwrhCmd row :=
  ne_of_beq_false rfl

theorem fowCmd_ne_delCmd (name : List Char) : fowCmd name ≠ delCmd name :=
  ne_of_beq_false rfl

/-- A map of `+FWRH` commands is untouched by the `isFWRH` filter. -/
theorem filter_isFWRH_map (L : List (List Nat)) :
    (L.map (fun ch => fwrhCmd (hexChunk ch))).filter isFWRH
      = L.map (fun ch => fwrhCmd (hexChunk ch)) := by
  induction L with
  | nil => rfl
  | cons a t ih => simp [List.filter, isFWRH_fwrhCmd, ih]

/-- Length of the chunk list under sufficient fuel. -/
theorem chunksGo_length (fuel : Nat) (l : List Nat) (h : l.length ≤ fuel) :
    (chunksGo fuel l).length = (l.length + 15) / 16 := by
  induction fuel generalizing l with
  | zero =>
      have : l = [] := List.length_eq_zero.mp (Nat.le_zero.mp h)
      subst this; rfl
  | succ f ih =>
      cases l with
      | nil => rfl
      | cons a rest =>
          have hlen : ((a :: rest).drop 16).length ≤ f := by
            simp only [List.length_drop, List.length_cons] at h ⊢
            omega
          rw [show chunksGo (f + 1) (a :: rest)
                = (a :: rest).take 16 :: chunksGo f ((a :: rest).drop 16) from rfl]
          rw [List.length_cons, ih _ hlen, List.length_drop]
          simp only [List.length_cons]
          omega

/-- Chunk count of `chunks16` is the ceiling of length / 16. -/
theorem chunks16_length (data : List Nat) :
    (chunks16 data).length = (data.length + 15) / 16 :=
  chunksGo_length data.length data (Nat.le_refl _)

/-- Replaying a command list whose every member succeeds just passes
through to the rest. -/
theorem runCmds_append_ok (okF : List Char → Bool) (l rest : List (List Char))
    (h : ∀ c ∈ l, okF c = true) :
    runCmds okF (l ++ rest) =
      (l ++ (runCmds okF rest).1, (runCmds okF rest).2) := by
  induction l with
  | nil => simp
  | cons a t ih =>
      have ha : okF a = true := h a (List.mem_cons_self a t)
      have ht : ∀ c ∈ t, okF c = true := fun c hc => h c (List.mem_cons_of_mem a hc)
      simp [runCmds, ha, ih ht]

/-- The trace of a singleton command is that command, whatever its
response. -/
theorem runCmds_single (okF : List Char → Bool) (c : List Char) :
    (runCmds okF [c]).1 = [c] := by
  by_cases h : okF c = true
  · simp [runCmds, h]
  · simp [runCmds, h]

/-- Unfolding `runCmds` over a command that succeeds. -/
theorem runCmds_cons_ok (okF : List Char → Bool) (c : List Char)
    (rest : List (List Char)) (h : okF c = true) :
    runCmds okF (c :: rest) = (c :: (runCmds okF rest).1, (runCmds okF rest).2) := by
  simp [runCmds, h]

/-- Unfolding `runCmds` over a command that fails: the failing command is
still sent, and nothing after it is. -/
theorem runCmds_cons_fail (okF : List Char → Bool) (c : List Char)
    (rest : List (List Char)) (h : okF c = false) :
    runCmds okF (c :: rest) = ([c], false) := by
  simp [runCmds, h]

/-- If some member of the leading block fails, the replay aborts inside
that block: it returns failure, the trace ends at a failing command, and
every sent command belongs to the block. -/
theorem runCmds_stops (okF : List Char → Bool) (l : List (List Char)) :
    ∀ rest : List (List Char), (∃ c ∈ l, okF c = false) →
    ∃ pre c, runCmds okF (l ++ rest) = (pre ++ [c], false)
      ∧ okF c = false ∧ ∀ x ∈ pre ++ [c], x ∈ l := by
  induction l with
  | nil => intro rest hex; simp at hex
  | cons a t ih =>
      intro rest hex
      by_cases ha : okF a = true
      · obtain ⟨c, hc, hcf⟩ := hex
        have hct : c ∈ t := by
          rcases List.mem_cons.mp hc with h | h
          · subst h; rw [ha] at hcf; cases hcf
          · exact h
        obtain ⟨pre, c', heq, hf, hmem⟩ := ih rest ⟨c, hct, hcf⟩
        refine ⟨a :: pre, c', ?_, hf, ?_⟩
        · simp [runCmds, ha, heq]
        · intro x hx
          rcases List.mem_cons.mp hx with h | h
          · exact List.mem_cons.mpr (Or.inl h)
          · exact List.mem_cons_of_mem a (hmem x h)
      · have ha' : okF a = false := by
          revert ha; cases okF a <;> simp
        refine ⟨[], a, ?_, ha', ?_⟩
        · simp [runCmds, ha']
        · intro x hx; simp at hx; exact List.mem_cons.mpr (Or.inl hx)

/-- Oracle of a device on which every command succeeds. -/
def okAll : List Char → Bool := fun _ => true

/-- Oracle of a device on which exactly the `+FWRH` chunk writes fail. -/
def okFailChunk : List Char → Bool := fun c => !isFWRH c

/-- Oracle of a device on which exactly the command `+DEL "x" +` fails. -/
def okFailDel : List Char → Bool := fun c => !(c == delCmd ['x'])

set_option maxRecDepth 100000 in
/-- C5: for every file of N bytes, upload issues exactly ceil(N/16)
`+FWRH` write commands, each carrying the chunk bytes rendered as two
lowercase hex digits per byte concatenated in order; if any chunk
command fails, upload aborts at that command and no `+FCL` is sent; if
all chunk commands succeed, exactly one `+FCL` follows the last chunk. -/
theorem upload_chunking :
    ∀ (name : List Char) (data : List Nat),
      (∀ okF : List Char → Bool,
        okF (delCmd name) = true → okF (fowCmd name) = true →
        (∀ ch ∈ chunks16 data, okF (fwrhCmd (hexChunk ch)) = true) →
          (uploadRun okF name data).1.filter isFWRH
              = (chunks16 data).map (fun ch => fwrhCmd (hexChunk ch))
          ∧ ((uploadRun okF name data).1.filter isFWRH).length
              = (data.length + 15) / 16
          ∧ ∃ pre, (uploadRun okF name data).1 = pre ++ [fclCmd] ∧ fclCmd ∉ pre)
      ∧ (∀ b : Nat, b < 256 → (pyHex02 b).length = 2
          ∧ ∀ c ∈ pyHex02 b, c ∈ "0123456789abcdef".toList)
      ∧ (∀ okF : List Char → Bool,
          okF (delCmd name) = true → okF (fowCmd name) = true →
          (∃ ch ∈ chunks16 data, okF (fwrhCmd (hexChunk ch)) = false) →
          (uploadRun okF name data).2 = false
          ∧ fclCmd ∉ (uploadRun okF name data).1
          ∧ ∃ pre c, (uploadRun okF name data).1 = pre ++ [c]
              ∧ isFWRH c = true ∧ okF c = false) := by
  intro name data
  refine ⟨?_, by decide, ?_⟩
  · intro okF hdel hfow hch
    have hmapok : ∀ c ∈ (chunks16 data).map (fun ch => fwrhCmd (hexChunk ch)),
        okF c = true := by
      intro c hc
      obtain ⟨ch, hmem, rfl⟩ := List.mem_map.mp hc
      exact hch ch hmem
    have h1 : (uploadRun okF name data).1
        = delCmd name :: fowCmd name ::
            ((chunks16 data).map (fun ch => fwrhCmd (hexChunk ch)) ++ [fclCmd]) := by
      simp only [uploadRun, uploadCmds, runCmds_cons_ok _ _ _ hdel,
        runCmds_cons_ok _ _ _ hfow, runCmds_append_ok okF _ [fclCmd] hmapok,
        runCmds_single]
    have hfilter : (uploadRun okF name data).1.filter isFWRH
        = (chunks16 data).map (fun ch => fwrhCmd (hexChunk ch)) := by
      rw [h1]
      simp [List.filter, List.filter_append, isFWRH_delCmd, isFWRH_fowCmd,
        isFWRH_fclCmd, filter_isFWRH_map]
    refine ⟨hfilter, ?_, ?_⟩
    · rw [hfilter, List.length_map, chunks16_length]
    · refine ⟨delCmd name :: fowCmd name ::
          (chunks16 data).map (fun ch => fwrhCmd (hexChunk ch)),
        by rw [h1]; simp, ?_⟩
      intro hmem
      simp only [List.mem_cons, List.mem_map] at hmem
      rcases hmem with h | h | ⟨ch, _, h⟩
      · exact fclCmd_ne_delCmd name h
      · exact fclCmd_ne_fowCmd name h
      · exact fclCmd_ne_fwrhCmd _ h.symm
  · intro okF hdel hfow hex
    have hex' : ∃ c ∈ (chunks16 data).map (fun ch => fwrhCmd (hexChunk ch)),
        okF c = false := by
      obtain ⟨ch, hmem, hf⟩ := hex
      exact ⟨fwrhCmd (hexChunk ch), List.mem_map.mpr ⟨ch, hmem, rfl⟩, hf⟩
    obtain ⟨pre, c, heq, hcf, hmem⟩ := runCmds_stops okF _ [fclCmd] hex'
    have h1 : uploadRun okF name data
        = (delCmd name :: fowCmd name :: (pre ++ [c]), false) := by
      simp only [uploadRun, uploadCmds, runCmds_cons_ok _ _ _ hdel,
        runCmds_cons_ok _ _ _ hfow, heq]
    have hcmap : c ∈ (chunks16 data).map (fun ch => fwrhCmd (hexChunk ch)) :=
      hmem c (by simp)
    refine ⟨by rw [h1], ?_, ?_⟩
    · intro hm
      rw [h1] at hm
      simp only [List.mem_cons] at hm
      rcases hm with h | h | h
      · exact fclCmd_ne_delCmd name h
      · exact fclCmd_ne_fowCmd name h
      · have hin := hmem _ h
        obtain ⟨ch, _, hEq⟩ := List.mem_map.mp hin
        exact fclCmd_ne_fwrhCmd _ hEq.symm
    · refine ⟨delCmd name :: fowCmd name :: pre, c, by rw [h1]; simp, ?_, hcf⟩
      obtain ⟨ch, _, hEq⟩ := List.mem_map.mp hcmap
      rw [← hEq]
      exact isFWRH_fwrhCmd _

/-- Witness for C5: an all-success device sends exactly the chunk writes
between the bookkeeping commands, and a device failing a chunk write
never receives `+FCL`. -/
theorem upload_chunking_witness :
    (uploadRun okAll ['x'] [170, 5]).1.filter isFWRH
        = (chunks16 [170, 5]).map (fun ch => fwrhCmd (hexChunk ch))
    ∧ (pyHex02 170).length = 2
    ∧ (uploadRun okFailChunk ['x'] [7]).2 = false
    ∧ fclCmd ∉ (uploadRun okFailChunk ['x'] [7]).1 := by
  refine ⟨((upload_chunking ['x'] [170, 5]).1 okAll rfl rfl fun ch hch => rfl).1,
    ((upload_chunking ['x'] [170, 5]).2.1 170 (by decide)).1, ?_, ?_⟩
  · exact ((upload_chunking ['x'] [7]).2.2 okFailChunk rfl rfl
      ⟨[7], by decide, rfl⟩).1
  · exact ((upload_chunking ['x'] [7]).2.2 okFailChunk rfl rfl
      ⟨[7], by decide, rfl⟩).2.1

/-- C8 counterexample: on a device whose response to the initial
`+DEL "x" +` is an error, upload aborts at once — the claim that upload
still proceeds to `+FOW` is false: `+FOW` is never sent. -/
theorem upload_delete_abort_counterexample :
    uploadRun okFailDel ['x'] [] = ([delCmd ['x']], false)
    ∧ fowCmd ['x'] ∉ (uploadRun okFailDel ['x'] []).1 := by
  decide

/-- C8 amended: the delete-if-exists step is made tolerant only at the
device level, by the trailing `" +"` of the command text; at the tool
level an error response to the delete command raises and aborts the
upload immediately, so `+FOW` is not sent. -/
theorem upload_delete_abort :
    ∀ (name : List Char) (data : List Nat) (okF : List Char → Bool),
      okF (delCmd name) = false →
      uploadRun okF name data = ([delCmd name], false)
      ∧ fowCmd name ∉ (uploadRun okF name data).1
      ∧ ∃ s : List Char, delCmd name = s ++ [' ', '+'] := by
  intro name data okF h
  have h1 : uploadRun okF name data = ([delCmd name], false) := by
    rw [uploadRun, uploadCmds]
    exact runCmds_cons_fail okF _ _ h
  refine ⟨h1, ?_, ?_⟩
  · rw [h1]
    simp [fowCmd_ne_delCmd name]
  · exact ⟨'+' :: 'D' :: 'E' :: 'L' :: ' ' :: '"' :: (name ++ ['"']),
      by simp [delCmd]⟩

/-- Witness for the amended C8 at a concrete failing-delete device. -/
theorem upload_delete_abort_witness :
    uploadRun okFailDel ['x'] [3] = ([delCmd ['x']], false)
    ∧ fowCmd ['x'] ∉ (uploadRun okFailDel ['x'] [3]).1
    ∧ ∃ s : List Char, delCmd ['x'] = s ++ [' ', '+'] :=
  upload_delete_abort ['x'] [3] okFailDel (by decide)

/-!
Run-output classification (`BLDevice.run`, blutil.py lines 93-104): the
bytes captured by `self.port.read(1024)` after `+RUN` are classified by
an if chain.  Each constructor records what the branch prints.
-/

/-- What `run` reports for the captured output bytes.  `completed`
carries the pre-terminator text when one is printed; `silent` is the
branch for the exact bytes `b"\n00"`, on which nothing is printed. -/
inductive RunOutcome where
  | completed (pre : Option (List Char))
  | deviceError (msg : List Char)
  | immediate (raw : List Char)
  | silent
  | probablyRunning
deriving DecidableEq

/-- Classification of the captured run output (blutil.py lines 94-104). -/
def classifyRun (output : List Char) : RunOutcome :=
  if output.length = 0 then
    RunOutcome.probablyRunning
  else if 3 ≤ output.length ∧ output.drop (output.length - 3) = termSeq then
    RunOutcome.completed
      (if 3 < output.length then some (output.take (output.length - 3)) else none)
  else if 4 < output.length ∧ output.take 4 = errMarker then
    RunOutcome.deviceError (output.drop 4)
  else if output ≠ ['\n', '0', '0'] then
    RunOutcome.immediate output
  else
    RunOutcome.silent

/-- C6 counterexample: the claim says every non-empty output that is not
terminator-suffixed is either reported as a device error (when it starts
with the error marker) or printed as raw immediate output; but the code
silently ignores the exact 3-byte output `"\n00"`, and classifies the
exact 4-byte marker `"\n01\t"` (which starts with the error marker) as
raw immediate output because the error branch demands length > 4. -/
theorem run_classification_counterexample :
    classifyRun ['\n', '0', '0'] = RunOutcome.silent
    ∧ RunOutcome.silent ≠ RunOutcome.immediate ['\n', '0', '0']
    ∧ classifyRun ['\n', '0', '1', '\t']
        = RunOutcome.immediate ['\n', '0', '1', '\t']
    ∧ RunOutcome.immediate ['\n', '0', '1', '\t'] ≠ RunOutcome.deviceError [] := by
  decide

/-- C6 amended: captured output ending with the success terminator is
reported as completed, surfacing the pre-terminator text when there is
any; output of length > 4 starting with the error marker has the
device-reported error printed; other non-empty output is printed as raw
immediate output unless it is exactly `"\n00"`, which is silently
ignored; empty output reports the program as probably still running. -/
theorem run_classification :
    ∀ output : List Char,
      (output = [] → classifyRun output = RunOutcome.probablyRunning)
      ∧ (3 ≤ output.length → output.drop (output.length - 3) = termSeq →
          classifyRun output = RunOutcome.completed
            (if 3 < output.length then some (output.take (output.length - 3))
             else none))
      ∧ (¬(3 ≤ output.length ∧ output.drop (output.length - 3) = termSeq) →
          4 < output.length → output.take 4 = errMarker →
          classifyRun output = RunOutcome.deviceError (output.drop 4))
      ∧ (output ≠ [] →
          ¬(3 ≤ output.length ∧ output.drop (output.length - 3) = termSeq) →
          ¬(4 < output.length ∧ output.take 4 = errMarker) →
          output ≠ ['\n', '0', '0'] →
          classifyRun output = RunOutcome.immediate output)
      ∧ (output = ['\n', '0', '0'] → classifyRun output = RunOutcome.silent) := by
  intro output
  refine ⟨?_, ?_, ?_, ?_, ?_⟩
  · intro h; subst h; rfl
  · intro h1 h2
    have hne : ¬output.length = 0 := by omega
    simp [classifyRun, hne, h1, h2]
  · intro h1 h2 h3
    have hne : ¬output.length = 0 := by omega
    simp [classifyRun, hne, h1, h2, h3]
  · intro h0 h1 h2 h3
    have hne : ¬output.length = 0 := by
      intro h; exact h0 (List.length_eq_zero.mp h)
    simp [classifyRun, hne, h1, h2, h3]
  · intro h; subst h; rfl

/-- Witness for the amended C6: immediate success output
`"hello\r\n00\r"` is reported completed with `"hello\r\n"` surfaced, and
empty output reports probably-running. -/
theorem run_classification_witness :
    classifyRun "hello\r\n00\r".toList
      = RunOutcome.completed (some "hello\r\n".toList)
    ∧ classifyRun [] = RunOutcome.probablyRunning := by
  constructor
  · have h := (run_classification "hello\r\n00\r".toList).2.1
      (by decide) (by decide)
    exact h.trans (by decide)
  · exact (run_classification []).1 rfl

/-!
Device file name derivation (`get_devicename`, blutil.py lines 133-137):
`os.path.split(filepath)[1]`, then `filename.split(".")[0]`, then
`re.sub(r"[:*?\x22<>|]", "", filename)[:24]`.
-/

/-- The base-name part `os.path.split(filepath)[1]`: everything after
the last slash (POSIX path behavior). -/
def basenameOf (p : List Char) : List Char :=
  (p.reverse.takeWhile (fun c => c != '/')).reverse

/-- Characters removed by the `re.sub` character class. -/
def illegalChars : List Char := [':', '*', '?', '"', '<', '>', '|']

/-- Device file name for a host path (blutil.py lines 133-137):
`split(".")[0]` keeps everything before the first dot, then the illegal
characters are removed and the result truncated to 24 characters. -/
def get_devicename (p : List Char) : List Char :=
  (((basenameOf p).takeWhile (fun c => c != '.')).filter
    (fun c => decide (c ∉ illegalChars))).take 24

/-- C7: every derived device file name contains none of the characters
illegal on the device file system, has length at most 24, and is a pure
function of the path. -/
theorem devicename_sanitized :
    ∀ p : List Char,
      (∀ c ∈ get_devicename p, c ∉ illegalChars)
      ∧ (get_devicename p).length ≤ 24
      ∧ (∀ q : List Char, p = q → get_devicename p = get_devicename q) := by
  intro p
  refine ⟨?_, ?_, ?_⟩
  · intro c hc
    have hf := List.take_subset 24 _ hc
    exact of_decide_eq_true (List.mem_filter.mp hf).2
  · rw [get_devicename, List.length_take]
    exact min_le_left _ _
  · intro q h; rw [h]

/-- Witness for C7 at a concrete path containing an illegal character. -/
theorem devicename_sanitized_witness :
    (get_devicename "dir/a*b.uwc".toList).length ≤ 24
    ∧ get_devicename "dir/a*b.uwc".toList
        = get_devicename "dir/a*b.uwc".toList :=
  ⟨(devicename_sanitized "dir/a*b.uwc".toList).2.1,
   (devicename_sanitized "dir/a*b.uwc".toList).2.2 _ rfl⟩

/-- C9 counterexample: for the path `"d/archive.tar.gz"` the code keeps
only `"archive"` — everything before the FIRST dot — not the
`"archive.tar"` that removing just the final extension would give. -/
theorem devicename_first_dot_counterexample :
    get_devicename "d/archive.tar.gz".toList = "archive".toList
    ∧ get_devicename "d/archive.tar.gz".toList ≠ "archive.tar".toList := by
  decide

/-- Follows the amended claim text, independently of the source model:
cut the base name at its first dot by explicit recursion. -/
def firstDotField : List Char → List Char
  | [] => []
  | c :: cs => if c = '.' then [] else c :: firstDotField cs

/-- Follows the amended claim text: the device name is the base name cut
at its first dot, with illegal characters removed, truncated to 24. -/
def devnameFirstDot (p : List Char) : List Char :=
  ((firstDotField (basenameOf p)).filter
    (fun c => decide (c ∉ illegalChars))).take 24

/-- The two phrasings of the first-dot cut agree. -/
theorem firstDotField_eq_takeWhile (l : List Char) :
    firstDotField l = l.takeWhile (fun c => c != '.') := by
  induction l with
  | nil => rfl
  | cons c cs ih =>
      by_cases h : c = '.'
      · subst h; simp [firstDotField, List.takeWhile]
      · have hb : (c != '.') = true := bne_iff_ne.mpr h
        simp [firstDotField, List.takeWhile, h, hb, ih]

/-- C9 amended: the device file name is the base name truncated at its
first dot (not at the final extension), then stripped of illegal
characters, then truncated to 24 characters. -/
theorem devicename_first_dot :
    ∀ p : List Char, get_devicename p = devnameFirstDot p := by
  intro p
  rw [get_devicename, devnameFirstDot, firstDotField_eq_takeWhile]

end Blutil
